import Mathlib

/-!
Verification development for the `betfair-trading` repository.

The embedding below models `src/harb/strategy.py` (the `Strategy` base
class, the `Jockey` strategy, and `make_scorecard`) over exact rational
arithmetic.  The repository modules `risk`, `analytics` (`HorseModel`) and
`common` are imported by `strategy.py` but their sources are not part of
the repository snapshot; the corresponding definitions are modelled from
the specification and are marked as such in their doc comments.

Conventions:
* Python floats become `ℚ` (exact rationals).
* The pandas DataFrame `self.vwao`, indexed by `(event_id, selection)`
  with a `vwao` odds column, becomes an association list `Vwao`; a failed
  pandas lookup (`KeyError`) becomes `Option.none`, surfaced as
  `StratError.keyError` where the Python code would raise.
* Mutation of `self._bets` / `self._curr` / `self.hm` becomes explicit
  state passing on `JockeyState`; Python exceptions become `Except`.
* The `volume_matched` column and `get_total_matched` are not used by any
  claim and are omitted; logging calls are comments (they do not change
  state).
-/

/-- From `common` (module not in the snapshot): the marker string for
"to be placed" (place-market) events.  Its exact value is irrelevant;
only equality tests against it appear in `strategy.py`. -/
def TO_BE_PLACED : String := "TO_BE_PLACED"

/-- `DEFAULT_COMM = 0.95` from `src/harb/strategy.py` line 15. -/
def DEFAULT_COMM : ℚ := 95 / 100

/-- A race document from the `train` collection, with the fields
`strategy.py` reads: `event_id`, `event` (market kind string),
`scheduled_off` (time, abstracted to `ℕ`), `selection` (runner list),
`winners`, `n_runners`. -/
structure Race where
  event_id : ℕ
  event : String
  scheduled_off : ℕ
  selection : List ℕ
  winners : List ℕ
  n_runners : ℕ
deriving DecidableEq

/-- A bet record as built by `Strategy.bet` (`strategy.py` lines 34-41):
note that the `win` field stores `self._curr['winners']`, the race's full
winner list, and `user_fields` stores the caller's extra fields with the
`user_` key prefix. -/
structure Bet where
  event_id : ℕ
  scheduled_off : ℕ
  selection : ℕ
  amount : ℚ
  odds : ℚ
  pnl : ℚ
  win : List ℕ
  user_fields : List (String × ℚ)
deriving DecidableEq

/-- The loaded quote snapshot `self.vwao`: one volume-weighted average
odds value per `(event_id, selection)` key. -/
abbrev Vwao := List ((ℕ × ℕ) × ℚ)

/-- `self.vwao.get_value((event_id, selection), 'vwao')`: `none` models the
pandas `KeyError` on a missing key. -/
def getValue (vwao : Vwao) (eid sel : ℕ) : Option ℚ :=
  (vwao.find? (fun kv => kv.1 = (eid, sel))).map (fun kv => kv.2)

/-- `self.vwao.ix[event_id]['vwao'][runners].values`: the odds of every
runner of the event, in runner order; `none` models the `KeyError` /
missing-label failure when the snapshot has no quote for the race. -/
def lookupQuotes (vwao : Vwao) (eid : ℕ) : List ℕ → Option (List ℚ)
  | [] => some []
  | r :: rs =>
    match getValue vwao eid r, lookupQuotes vwao eid rs with
    | some v, some vs => some (v :: vs)
    | _, _ => none

/-- `np.min` over a list: `none` models the `ValueError` numpy raises on
an empty array. -/
def npmin : List ℚ → Option ℚ
  | [] => none
  | x :: xs => some (xs.foldl min x)

/-- Modelled from the spec: the `risk` module is not in the snapshot.
Spec §4.2 / glossary: for stakes `w` at odds `odds` in an n-way-win-one
market, scenario `i` credits the winning selection's stake at its odds and
debits all other stakes, so the net return of scenario `i` is
`w i * (odds i - 1) - (sum of the other stakes)`, i.e.
`w i * odds i - (sum of all stakes)`. -/
def risk.nwin1_bet_returns (w odds : List ℚ) : List ℚ :=
  List.zipWith (fun wi oi => wi * oi - w.sum) w odds

/-- Modelled from the spec: the `risk` module is not in the snapshot.
Spec §4.2: `w` maximises the expected edge `Σ wᵢ(pᵢ/qᵢ - 1)` minus the L2
penalty `ra * ‖w‖²`; the unconstrained maximiser of this smooth concave
objective is `wᵢ = (pᵢ/qᵢ - 1) / (2 * ra)` componentwise. -/
def risk.nwin1_l2reg (p q : List ℚ) (ra : ℚ) : List ℚ :=
  List.zipWith (fun pi qi => (pi / qi - 1) / (2 * ra)) p q

/-- Modelled from the spec: `analytics` is not in the snapshot.  Spec §3:
a per-competitor Gaussian skill belief `(mean, uncertainty)` plus the
prior-observation count that `min_races` gating reads. -/
structure SkillBelief where
  mu : ℚ
  sigma : ℚ
  runs : ℕ
deriving DecidableEq

/-- Modelled from the spec: prior mean `mu₀ = 0` (spec §3). -/
def DEFAULT_MU : ℚ := 0

/-- Modelled from the spec: prior uncertainty `sigma₀` (spec §3),
abstracted to 1. -/
def DEFAULT_SIGMA : ℚ := 1

/-- Modelled from the spec: per-race dynamics variance `tau` (spec §4.1),
abstracted to 1/10. -/
def DEFAULT_TAU : ℚ := 1 / 10

/-- Modelled from the spec: `analytics.HorseModel`, one skill belief per
competitor, created lazily with the prior on first appearance. -/
structure HorseModel where
  beliefs : List (ℕ × SkillBelief)
deriving DecidableEq

/-- Belief lookup with lazy prior creation (spec §3). -/
def HorseModel.lookup (hm : HorseModel) (r : ℕ) : SkillBelief :=
  ((hm.beliefs.find? (fun kv => kv.1 = r)).map (fun kv => kv.2)).getD
    { mu := DEFAULT_MU, sigma := DEFAULT_SIGMA, runs := 0 }

/-- Modelled from the spec: `HorseModel.get_runs` — the number of prior
observed races per runner, the quantity the `min_races` eligibility gate
tests. -/
def HorseModel.get_runs (hm : HorseModel) (runners : List ℕ) : List ℕ :=
  runners.map (fun r => (hm.lookup r).runs)

/-- Modelled from the spec: head-to-head win probability of a competitor
with skill mean `a` against one with mean `b` (spec §4.1); any
deterministic aggregate valued in `(0, 1)` and increasing in `a - b`
satisfies the stated contract, the quadrature formula itself being absent
from the snapshot. -/
def HorseModel.pWin2 (a b : ℚ) : ℚ :=
  1 / 2 + (a - b) / (4 * (1 + |a - b|))

/-- Modelled from the spec: `HorseModel.pwin_trapz` — one non-negative win
probability per runner, aggregated from pairwise comparisons against every
rival (spec §4.1; probabilities need not sum to 1). -/
def HorseModel.pwin_trapz (hm : HorseModel) (runners : List ℕ) : List ℚ :=
  runners.map (fun r =>
    (runners.filter (fun x => ¬ (x = r))).foldl
      (fun acc x => acc * HorseModel.pWin2 (hm.lookup r).mu (hm.lookup x).mu) 1)

/-- Replace (or insert) the belief of runner `r`. -/
def HorseModel.setBelief (hm : HorseModel) (r : ℕ) (b : SkillBelief) : HorseModel :=
  if hm.beliefs.any (fun kv => kv.1 = r) then
    { beliefs := hm.beliefs.map (fun kv => if kv.1 = r then (r, b) else kv) }
  else
    { beliefs := hm.beliefs ++ [(r, b)] }

/-- Modelled from the spec: `HorseModel.fit_race` — the Bayesian update
after a race (spec §4.1): winners' means increase, the others' decrease,
uncertainties shrink with the dynamics variance `tau` added back, every
participant's observation count grows; a race with fewer than 2
participants is a no-op. -/
def HorseModel.fit_race (hm : HorseModel) (race : Race) : HorseModel :=
  if race.selection.length < 2 then hm
  else
    race.selection.foldl (fun h r =>
      let b := h.lookup r
      h.setBelief r
        { mu := if r ∈ race.winners then b.mu + 1 else b.mu - 1
          sigma := b.sigma / 2 + DEFAULT_TAU
          runs := b.runs + 1 }) hm

/-- The backtest errors the embedded code can raise: `assertion` is the
`assert` at the top of `Strategy.bet`, `keyError` a pandas `KeyError`,
`attr` the `AttributeError` of reading `self._curr` before `run` set it,
`valueError` numpy's error on `np.min` of an empty array. -/
inductive StratError where
  | assertion
  | keyError
  | attr
  | valueError
deriving DecidableEq

/-- The mutable state of a `Jockey` strategy object: `self._bets`,
`self._curr` and `self.hm`. -/
structure JockeyState where
  bets : List Bet
  curr : Option Race
  hm : HorseModel
deriving DecidableEq

/-- The bet dict built in `Strategy.bet` (`strategy.py` lines 30-41):
`win` is the local 0/1 flag used for the pnl, while the record's `win`
field stores the full winner list `self._curr['winners']`. -/
def betRecord (c : Race) (eid sel : ℕ) (amount odds : ℚ)
    (uf : List (String × ℚ)) : Bet :=
  let win : ℚ := if sel ∈ c.winners then 1 else 0
  { event_id := eid
    scheduled_off := c.scheduled_off
    selection := sel
    amount := amount
    odds := odds
    pnl := win * amount * (odds - 1) - (1 - win) * amount
    win := c.winners
    user_fields := uf.map (fun kv => ("user_" ++ kv.1, kv.2)) }

/-- `Strategy.bet` (`strategy.py` lines 25-42): assert the event is the
race being replayed, look up the taken odds, compute the realized pnl from
the now-known outcome, append the record to the ledger. -/
def Strategy.bet (vwao : Vwao) (s : JockeyState) (eid sel : ℕ) (amount : ℚ)
    (uf : List (String × ℚ)) : Except StratError JockeyState :=
  match s.curr with
  | none => .error .attr
  | some c =>
    if eid = c.event_id then
      match getValue vwao eid sel with
      | none => .error .keyError
      | some odds =>
        .ok { s with bets := s.bets ++ [betRecord c eid sel amount odds uf] }
    else .error .assertion

/-- The elementwise blending of `strategy.py` lines 140-144: the two mask
assignments `p[rel < -t] = q[rel < -t] * 0.9` and
`p[rel > t] = q[rel > t] * 1.1` act on disjoint index sets computed from
the original `rel = p / q - 1`, so they amount to this per-entry function
with `t = 0.1`. -/
def capFun (pi qi : ℚ) : ℚ :=
  let t : ℚ := 1 / 10
  let rel : ℚ := pi / qi - 1
  if rel < -t then qi * (9 / 10)
  else if rel > t then qi * (11 / 10)
  else pi

/-- The blended probability vector of `strategy.py` lines 140-144. -/
def capProbs (p q : List ℚ) : List ℚ :=
  List.zipWith capFun p q

/-- `q = 1.0 / vwao` (`strategy.py` line 137). -/
def Jockey.jockeyQ (vs : List ℚ) : List ℚ :=
  vs.map (fun v => 1 / v)

/-- The blended `p` fed to the optimizer (`strategy.py` lines 138-144). -/
def Jockey.jockeyP (hm : HorseModel) (runners : List ℕ) (vs : List ℚ) : List ℚ :=
  capProbs (hm.pwin_trapz runners) (Jockey.jockeyQ vs)

/-- `w = risk.nwin1_l2reg(p, q, 0.1)` (`strategy.py` line 150). -/
def Jockey.jockeyW (hm : HorseModel) (runners : List ℕ) (vs : List ℚ) : List ℚ :=
  risk.nwin1_l2reg (Jockey.jockeyP hm runners vs) (Jockey.jockeyQ vs) (1 / 10)

/-- `coll = np.min(risk.nwin1_bet_returns(w, 1 / q))` (`strategy.py`
line 152). -/
def Jockey.jockeyColl (hm : HorseModel) (runners : List ℕ) (vs : List ℚ) : Option ℚ :=
  npmin (risk.nwin1_bet_returns (Jockey.jockeyW hm runners vs)
    ((Jockey.jockeyQ vs).map (fun x => 1 / x)))

/-- The bet-placement comprehension of `strategy.py` line 155:
`[self.bet(race['event_id'], r, w[i], p=p[i]) for i, r in enumerate(runners)]`,
calling `Strategy.bet` once per runner in order. -/
def Jockey.placeAll (vwao : Vwao) (eid : ℕ) :
    JockeyState → List (ℕ × ℚ × ℚ) → Except StratError JockeyState
  | s, [] => .ok s
  | s, (r, wi, pi) :: rest =>
    match Strategy.bet vwao s eid r wi [("p", pi)] with
    | .error e => .error e
    | .ok s1 => Jockey.placeAll vwao eid s1 rest

/-- The body of `Jockey.handle_race` after the early return
(`strategy.py` lines 132-157): the `min_races` gate, the unguarded quote
lookup, blending, optimization, the collateral gate `coll > -60`, and the
bet placement. -/
def Jockey.hrBody (vwao : Vwao) (s : JockeyState) (race : Race) :
    Except StratError JockeyState :=
  if (s.hm.get_runs race.selection).all (fun n => decide (2 < n)) then
    match lookupQuotes vwao race.event_id race.selection with
    | none => .error .keyError
    | some vs =>
      match Jockey.jockeyColl s.hm race.selection vs with
      | none => .error .valueError
      | some coll =>
        if coll > -60 then
          Jockey.placeAll vwao race.event_id s
            (race.selection.zip ((Jockey.jockeyW s.hm race.selection vs).zip
              (Jockey.jockeyP s.hm race.selection vs)))
        else .ok s
  else .ok s

/-- `Jockey.handle_race` (`strategy.py` lines 128-159): skip place markets
and races with fewer than 3 runners outright; otherwise run the betting
body and then `self.hm.fit_race(race)`. -/
def Jockey.handle_race (vwao : Vwao) (s : JockeyState) (race : Race) :
    Except StratError JockeyState :=
  if race.event = TO_BE_PLACED ∨ race.n_runners < 3 then .ok s
  else
    match Jockey.hrBody vwao s race with
    | .error e => .error e
    | .ok s1 => .ok { s1 with hm := s1.hm.fit_race race }

/-- The per-event quote rows `self.vwao.ix[race['event_id']]['vwao']`
used by `handle_race2`; an empty result models the `KeyError` its `try`
block catches. -/
def eventQuotes (vwao : Vwao) (eid : ℕ) : List (ℕ × ℚ) :=
  (vwao.filter (fun kv => kv.1.1 = eid)).map (fun kv => (kv.1.2, kv.2))

/-- `vwao[vwao == vwao.min()].index[0]`: the first selection attaining the
minimum odds. -/
def argminSel : List (ℕ × ℚ) → Option ℕ
  | [] => none
  | x :: xs => some ((xs.foldl (fun best y => if y.2 < best.2 then y else best) x).1)

/-- `Jockey.handle_race2` (`strategy.py` lines 118-126): bet 2.0 on the
shortest-priced selection of a place market; any `KeyError` inside the
`try` block (the quote lookup or the bet's own lookup) is caught and
logged, leaving the state unchanged. -/
def Jockey.handle_race2 (vwao : Vwao) (s : JockeyState) (race : Race) :
    Except StratError JockeyState :=
  if race.event ≠ TO_BE_PLACED then .ok s
  else
    match argminSel (eventQuotes vwao race.event_id) with
    | none => .ok s
    | some sel =>
      match Strategy.bet vwao s race.event_id sel 2 [] with
      | .error .keyError => .ok s
      | r => r

/-- `Strategy.run` (`strategy.py` lines 47-72) restricted to the replay
loop: the quote snapshot is already loaded as `vwao`, the race stream is
`races`; each iteration sets `self._curr = race` and dispatches to the
overriding `Jockey.handle_race`.  The periodic progress logging does not
change state and is omitted. -/
def Strategy.run (vwao : Vwao) : JockeyState → List Race → Except StratError JockeyState
  | s, [] => .ok s
  | s, race :: rest =>
    match Jockey.handle_race vwao { s with curr := some race } race with
    | .error e => .error e
    | .ok s1 => Strategy.run vwao s1 rest

/-- The bets that one `handle_race` call appends when the betting branch
is reached: the same guards as `hrBody`, with each runner's record built
exactly as `Strategy.bet` builds it (the per-selection `get_value` odds
lookup included).  `hm` is passed explicitly: it is the pre-race skill
state, `c` is `self._curr`. -/
def Jockey.jockeyNewBets (vwao : Vwao) (hm : HorseModel) (c : Race) (race : Race) : List Bet :=
  if race.event = TO_BE_PLACED ∨ race.n_runners < 3 then []
  else if (hm.get_runs race.selection).all (fun n => decide (2 < n)) then
    match lookupQuotes vwao race.event_id race.selection with
    | none => []
    | some vs =>
      match Jockey.jockeyColl hm race.selection vs with
      | none => []
      | some coll =>
        if coll > -60 then
          (race.selection.zip ((Jockey.jockeyW hm race.selection vs).zip
            (Jockey.jockeyP hm race.selection vs))).map (fun x =>
              betRecord c race.event_id x.1 x.2.1
                ((getValue vwao race.event_id x.1).getD 0) [("p", x.2.2)])
        else []
  else []

/-- One row of the per-event aggregation frame `events` built by
`make_scorecard` (`strategy.py` lines 88-94). -/
structure EventRow where
  event_id : ℕ
  pnl_gross : ℚ
  coll : ℚ
  scheduled_off : ℕ
  pnl_net : ℚ
deriving DecidableEq

/-- The per-event aggregation of `make_scorecard` (`strategy.py` lines
81-94): group the ledger by `event_id`; per group take the pnl sum, the
collateral `np.min(risk.nwin1_bet_returns(amounts, odds))`, the first
scheduled time; then `pnl_net` equals `pnl_gross` with positive values
multiplied by `comm` (lines 93-94).  The daily-series and percentile
blocks of `make_scorecard` are presentation glue over external pandas
calls and are not part of the claims' aggregation. -/
def make_scorecard_events (bets : List Bet) (comm : ℚ) : List EventRow :=
  ((bets.map (fun b => b.event_id)).dedup).map (fun e =>
    let group := bets.filter (fun b => b.event_id = e)
    let gross := (group.map (fun b => b.pnl)).sum
    { event_id := e
      pnl_gross := gross
      coll := (npmin (risk.nwin1_bet_returns (group.map (fun b => b.amount))
        (group.map (fun b => b.odds)))).getD 0
      scheduled_off := ((group.map (fun b => b.scheduled_off)).headD 0)
      pnl_net := if gross > 0 then gross * comm else gross })

deriving instance DecidableEq for Except

/-! ### Concrete inputs used by witnesses and counterexamples -/

/-- An empty skill model (no runner seen yet). -/
def hm0 : HorseModel := ⟨[]⟩

/-- A skill model in which runners 1, 2, 3 each have 3 prior races. -/
def hm3 : HorseModel :=
  ⟨[(1, ⟨0, 1, 3⟩), (2, ⟨0, 1, 3⟩), (3, ⟨0, 1, 3⟩)]⟩

/-- An ordinary 3-runner win-market race, winner 1. -/
def race1 : Race := ⟨100, "Win", 7, [1, 2, 3], [1], 3⟩

/-- A second ordinary race, used as the follow-up race of a stream. -/
def raceB : Race := ⟨11, "Win", 1, [1, 2, 3], [2], 3⟩

/-- A 2-runner race: below the `n_runners < 3` gate, with a known winner. -/
def raceSmall : Race := ⟨20, "Win", 0, [4, 5], [4], 2⟩

/-- A "to be placed" market event. -/
def raceTbp : Race := ⟨30, TO_BE_PLACED, 0, [6], [6], 1⟩

/-- A 2-runner race with winner 1, used for bet-record scenarios. -/
def raceW : Race := ⟨9, "Win", 5, [1, 2], [1], 2⟩

/-- Quotes for `race1`: odds 4 for each runner. -/
def vw1 : Vwao := [((100, 1), 4), ((100, 2), 4), ((100, 3), 4)]

/-- Quotes for `raceW`: odds 3 and 4. -/
def vw9 : Vwao := [((9, 1), 3), ((9, 2), 4)]

/-- Fresh state with no current race and an empty skill model. -/
def st0 : JockeyState := ⟨[], none, hm0⟩

/-- State replaying `race1` with an empty skill model. -/
def st1 : JockeyState := ⟨[], some race1, hm0⟩

/-- The state after `handle_race` on `race1` from `st1` (the `min_races`
gate fails, so only the skill update fires). -/
def st1after : JockeyState := { st1 with hm := st1.hm.fit_race race1 }

/-- State replaying `raceW` with an empty skill model. -/
def s9 : JockeyState := ⟨[], some raceW, hm0⟩

/-- `s9` after betting 2.0 on selection 1 of `raceW`. -/
def s9a : JockeyState := (Strategy.bet vw9 s9 9 1 2 []).toOption.getD s9

/-- `s9a` after betting 2.0 on selection 2 of `raceW`. -/
def s9b : JockeyState := (Strategy.bet vw9 s9a 9 2 2 []).toOption.getD s9a

/-- State for the missing-quote run: runners of `race1` are eligible. -/
def st2 : JockeyState := ⟨[], none, hm3⟩

/-- A single one-bet ledger used by scorecard witnesses. -/
def betsW : List Bet := [⟨5, 1, 1, 2, 3, 4, [1], []⟩]

/-- The single event row computed from `betsW` at the default commission. -/
def rowW : EventRow := (make_scorecard_events betsW DEFAULT_COMM).getD 0 ⟨0, 0, 0, 0, 0⟩

/-! ### Helper lemmas -/

/-- Pointwise description of the blended vector. -/
theorem capProbs_getD : ∀ (p q : List ℚ) (i : ℕ), i < p.length → i < q.length →
    (capProbs p q).getD i 0 = capFun (p.getD i 0) (q.getD i 0) := by
  intro p
  induction p with
  | nil => intro q i h1 _; exact absurd h1 (by simp)
  | cons a p ih =>
    intro q i h1 h2
    cases q with
    | nil => exact absurd h2 (by simp)
    | cons b q =>
      cases i with
      | zero => rfl
      | succ n =>
        simp only [capProbs, List.zipWith_cons_cons, List.getD_cons_succ]
        exact ih q n (by simpa using h1) (by simpa using h2)

/-! ### C4 -/

/-- Claim C4: in every betting decision the model probabilities are capped
toward the market-implied probabilities with tolerance `t = 0.1` before
the optimizer runs (`strategy.py` lines 137-150 feed `capProbs p q` into
`risk.nwin1_l2reg`): entrywise, if `p/q - 1 > t` the entry becomes
`q*(1+t)`, if `p/q - 1 < -t` it becomes `q*(1-t)`, and otherwise it is
unchanged; consequently every blended entry lies in the band
`[q*(1-t), q*(1+t)]`. -/
theorem blending_caps_toward_market (p q : List ℚ) (hlen : p.length = q.length)
    (i : ℕ) (hi : i < p.length) (hq : 0 < q.getD i 0) :
    (capProbs p q).getD i 0 =
      (if p.getD i 0 / q.getD i 0 - 1 > 1 / 10 then q.getD i 0 * (1 + 1 / 10)
       else if p.getD i 0 / q.getD i 0 - 1 < -(1 / 10) then q.getD i 0 * (1 - 1 / 10)
       else p.getD i 0) ∧
    q.getD i 0 * (1 - 1 / 10) ≤ (capProbs p q).getD i 0 ∧
    (capProbs p q).getD i 0 ≤ q.getD i 0 * (1 + 1 / 10) := by
  have hiq : i < q.length := hlen ▸ hi
  rw [capProbs_getD p q i hi hiq]
  set pi := p.getD i 0 with hpi
  set qi := q.getD i 0 with hqi
  unfold capFun
  simp only
  by_cases h1 : pi / qi - 1 < -(1 / 10)
  · have h2 : ¬ (pi / qi - 1 > 1 / 10) := by intro h; linarith
    rw [if_pos h1, if_neg h2, if_pos h1]
    refine ⟨by ring, le_of_eq (by ring), ?_⟩
    nlinarith
  · by_cases h2 : pi / qi - 1 > 1 / 10
    · rw [if_neg h1, if_pos h2, if_pos h2]
      refine ⟨by ring, ?_, le_of_eq (by ring)⟩
      nlinarith
    · rw [if_neg h1, if_neg h2, if_neg h2, if_neg h1]
      have hd1 : 1 - 1 / 10 ≤ pi / qi := by linarith [not_lt.mp h1]
      have hd2 : pi / qi ≤ 1 + 1 / 10 := by linarith [not_lt.mp h2]
      have hlow : qi * (1 - 1 / 10) ≤ pi := by
        have := (le_div_iff₀ hq).mp hd1
        linarith
      have hhigh : pi ≤ qi * (1 + 1 / 10) := by
        have := (div_le_iff₀ hq).mp hd2
        linarith
      exact ⟨rfl, hlow, hhigh⟩

/-- Witness for C4: a concrete in-band entry. -/
theorem blending_caps_toward_market_witness :
    ([(2 : ℚ)].length = [(2 : ℚ)].length) ∧ (0 < [(2 : ℚ)].length) ∧
    (0 < [(2 : ℚ)].getD 0 0) ∧
    ((capProbs [(2 : ℚ)] [(2 : ℚ)]).getD 0 0 =
      (if [(2 : ℚ)].getD 0 0 / [(2 : ℚ)].getD 0 0 - 1 > 1 / 10 then
        [(2 : ℚ)].getD 0 0 * (1 + 1 / 10)
       else if [(2 : ℚ)].getD 0 0 / [(2 : ℚ)].getD 0 0 - 1 < -(1 / 10) then
        [(2 : ℚ)].getD 0 0 * (1 - 1 / 10)
       else [(2 : ℚ)].getD 0 0) ∧
     [(2 : ℚ)].getD 0 0 * (1 - 1 / 10) ≤ (capProbs [(2 : ℚ)] [(2 : ℚ)]).getD 0 0 ∧
     (capProbs [(2 : ℚ)] [(2 : ℚ)]).getD 0 0 ≤ [(2 : ℚ)].getD 0 0 * (1 + 1 / 10)) :=
  ⟨rfl, by decide, by decide,
    blending_caps_toward_market [(2 : ℚ)] [(2 : ℚ)] rfl 0 (by decide) (by decide)⟩

/-- Inversion of a successful `Strategy.bet` call. -/
theorem bet_ok_inv (vwao : Vwao) (s : JockeyState) (eid sel : ℕ) (amount : ℚ)
    (uf : List (String × ℚ)) (s1 : JockeyState)
    (h : Strategy.bet vwao s eid sel amount uf = .ok s1) :
    ∃ c odds, s.curr = some c ∧ eid = c.event_id ∧
      getValue vwao eid sel = some odds ∧
      s1 = { s with bets := s.bets ++ [betRecord c eid sel amount odds uf] } := by
  unfold Strategy.bet at h
  cases hc : s.curr with
  | none => rw [hc] at h; exact absurd h (by simp)
  | some c =>
    rw [hc] at h
    dsimp only at h
    by_cases he : eid = c.event_id
    · rw [if_pos he] at h
      cases hv : getValue vwao eid sel with
      | none => rw [hv] at h; exact absurd h (by simp)
      | some odds =>
        rw [hv] at h
        dsimp only at h
        exact ⟨c, odds, rfl, he, rfl, (Except.ok.inj h).symm⟩
    · rw [if_neg he] at h; exact absurd h (by simp)

/-! ### C5 -/

/-- Claim C5: every bet placed on the current race with stake `a` at taken
odds `o` records, at placement time, the realized P&L `a*(o-1)` when the
selection is in the race's winner set and `-a` otherwise (`strategy.py`
lines 31-32). -/
theorem bet_realized_pnl (vwao : Vwao) (s : JockeyState) (eid sel : ℕ)
    (amount : ℚ) (uf : List (String × ℚ)) (s1 : JockeyState)
    (h : Strategy.bet vwao s eid sel amount uf = .ok s1) :
    ∃ c odds, s.curr = some c ∧ getValue vwao eid sel = some odds ∧
      s1.bets = s.bets ++ [betRecord c eid sel amount odds uf] ∧
      (betRecord c eid sel amount odds uf).pnl =
        (if sel ∈ c.winners then amount * (odds - 1) else -amount) := by
  obtain ⟨c, odds, hc, _, hv, rfl⟩ := bet_ok_inv vwao s eid sel amount uf s1 h
  refine ⟨c, odds, hc, hv, rfl, ?_⟩
  unfold betRecord
  by_cases hw : sel ∈ c.winners
  · simp only [hw, if_pos]
    ring
  · simp only [hw, if_neg, if_false]
    ring

/-- Witness for C5: betting 2.0 at odds 3 on the winning selection of
`raceW`. -/
theorem bet_realized_pnl_witness :
    ∃ c odds, s9.curr = some c ∧ getValue vw9 9 1 = some odds ∧
      s9a.bets = s9.bets ++ [betRecord c 9 1 2 odds []] ∧
      (betRecord c 9 1 2 odds []).pnl =
        (if 1 ∈ c.winners then 2 * (odds - 1) else -2) :=
  bet_realized_pnl vw9 s9 9 1 2 [] s9a (by rfl)

/-- Every row of the per-event frame satisfies the `pnl_net` construction
of `strategy.py` lines 93-94. -/
theorem make_scorecard_events_net (bets : List Bet) (comm : ℚ) (row : EventRow)
    (h : row ∈ make_scorecard_events bets comm) :
    row.pnl_net = if row.pnl_gross > 0 then row.pnl_gross * comm else row.pnl_gross := by
  unfold make_scorecard_events at h
  obtain ⟨e, _, rfl⟩ := List.mem_map.mp h
  rfl

/-! ### C7 -/

/-- Claim C7: in the scorecard's per-event aggregation, net P&L equals
gross P&L when gross ≤ 0 and `gross * comm` when gross > 0
(`strategy.py` lines 93-94); losses are never commissioned, and the
configured default commission factor is `DEFAULT_COMM = 0.95`. -/
theorem commission_on_positive_gross_only (bets : List Bet) (comm : ℚ)
    (row : EventRow) (h : row ∈ make_scorecard_events bets comm) :
    (row.pnl_gross ≤ 0 → row.pnl_net = row.pnl_gross) ∧
    (0 < row.pnl_gross → row.pnl_net = row.pnl_gross * comm) ∧
    DEFAULT_COMM = 95 / 100 := by
  have hnet := make_scorecard_events_net bets comm row h
  refine ⟨?_, ?_, rfl⟩
  · intro hle
    rw [hnet, if_neg (not_lt.mpr hle)]
  · intro hpos
    rw [hnet, if_pos hpos]

/-- Witness for C7: the single-event ledger `betsW`. -/
theorem commission_on_positive_gross_only_witness :
    (rowW ∈ make_scorecard_events betsW DEFAULT_COMM) ∧
    ((rowW.pnl_gross ≤ 0 → rowW.pnl_net = rowW.pnl_gross) ∧
     (0 < rowW.pnl_gross → rowW.pnl_net = rowW.pnl_gross * DEFAULT_COMM) ∧
     DEFAULT_COMM = 95 / 100) :=
  ⟨List.Mem.head _,
    commission_on_positive_gross_only betsW DEFAULT_COMM rowW (List.Mem.head _)⟩

/-! ### C9 -/

/-- Counterexample for C9: in `raceW` (winner 1), the bets on selection 1
(a winner) and selection 2 (a loser) carry the *same* `win` field — the
race's full winner list `[1]` (`strategy.py` line 40 stores
`self._curr['winners']`) — so the stored field is not a realized win flag
for the bet's own selection: it does not distinguish the winning bet from
the losing one. -/
theorem bet_win_field_not_a_flag :
    s9b.bets.map (fun b => b.win) = [[1], [1]] ∧
    s9b.bets.map (fun b => b.selection) = [1, 2] ∧
    (1 ∈ raceW.winners) ∧ ¬ (2 ∈ raceW.winners) := by
  decide

/-- Claim C9 as amended: every bet record created at placement time
carries the event id, selection id, scheduled time, signed stake amount,
taken odds, realized profit/loss and the `user_`-prefixed optional fields;
its `win` field stores the race's winner set (from which the per-selection
outcome is derivable), not a per-selection flag — the 0/1 flag is computed
at placement and used for the pnl only.  The record is immutable (it is a
pure value appended to the ledger). -/
theorem bet_record_fields (vwao : Vwao) (s : JockeyState) (eid sel : ℕ)
    (amount : ℚ) (uf : List (String × ℚ)) (c : Race) (odds : ℚ)
    (hc : s.curr = some c) (he : eid = c.event_id)
    (hv : getValue vwao eid sel = some odds) :
    Strategy.bet vwao s eid sel amount uf =
      .ok { s with bets := s.bets ++ [betRecord c eid sel amount odds uf] } ∧
    (betRecord c eid sel amount odds uf).event_id = eid ∧
    (betRecord c eid sel amount odds uf).selection = sel ∧
    (betRecord c eid sel amount odds uf).scheduled_off = c.scheduled_off ∧
    (betRecord c eid sel amount odds uf).amount = amount ∧
    (betRecord c eid sel amount odds uf).odds = odds ∧
    (betRecord c eid sel amount odds uf).win = c.winners ∧
    (betRecord c eid sel amount odds uf).user_fields =
      uf.map (fun kv => ("user_" ++ kv.1, kv.2)) := by
  refine ⟨?_, rfl, rfl, rfl, rfl, rfl, rfl, rfl⟩
  unfold Strategy.bet
  rw [hc]
  dsimp only
  rw [if_pos he, hv]

/-- Witness for C9's amended claim: the concrete bet of `s9a`. -/
theorem bet_record_fields_witness :
    (Strategy.bet vw9 s9 9 1 2 [] =
      .ok { s9 with bets := s9.bets ++ [betRecord raceW 9 1 2 3 []] } ∧
    (betRecord raceW 9 1 2 3 []).event_id = 9 ∧
    (betRecord raceW 9 1 2 3 []).selection = 1 ∧
    (betRecord raceW 9 1 2 3 []).scheduled_off = raceW.scheduled_off ∧
    (betRecord raceW 9 1 2 3 []).amount = 2 ∧
    (betRecord raceW 9 1 2 3 []).odds = 3 ∧
    (betRecord raceW 9 1 2 3 []).win = raceW.winners ∧
    (betRecord raceW 9 1 2 3 []).user_fields =
      ([] : List (String × ℚ)).map (fun kv => ("user_" ++ kv.1, kv.2))) :=
  bet_record_fields vw9 s9 9 1 2 [] raceW 3 rfl rfl rfl

/-! ### C2 -/

/-- Counterexample for C2: with an empty quote snapshot, the first race of
the stream is eligible (3 runners, all with 3 prior races) but has no
quote; `Jockey.handle_race` raises the pandas `KeyError` from its
unguarded lookup (`strategy.py` line 135), so the whole replay terminates
with that error — the second race is never processed and the first race's
skill update never happens.  The missing quote *is* fatal to the run. -/
theorem missing_quote_kills_run :
    Strategy.run [] st2 [race1, raceB] = .error .keyError := by
  decide

/-- Claim C2 as amended: a missing market quote is fatal in
`Jockey.handle_race` — for an otherwise-eligible race the unguarded quote
lookup raises `KeyError`, terminating the replay with no skill update for
that race; only `Jockey.handle_race2` treats a missing quote as
recoverable (its `try` block catches the `KeyError`, logs, and leaves the
state unchanged, performing no skill update in any case). -/
theorem missing_quote_fatal_in_handle_race (vwao : Vwao) (s : JockeyState)
    (race : Race) (vwao2 : Vwao) (s2 : JockeyState) (race2 : Race)
    (h1 : race.event ≠ TO_BE_PLACED) (h2 : ¬ race.n_runners < 3)
    (h3 : (s.hm.get_runs race.selection).all (fun n => decide (2 < n)) = true)
    (h4 : lookupQuotes vwao race.event_id race.selection = none)
    (h5 : race2.event = TO_BE_PLACED)
    (h6 : eventQuotes vwao2 race2.event_id = []) :
    Jockey.handle_race vwao s race = .error .keyError ∧
    Jockey.handle_race2 vwao2 s2 race2 = .ok s2 := by
  constructor
  · unfold Jockey.handle_race
    rw [if_neg (by push_neg; exact ⟨h1, not_lt.mp h2⟩)]
    unfold Jockey.hrBody
    rw [if_pos h3, h4]
  · unfold Jockey.handle_race2
    rw [if_neg (not_not_intro h5), h6]
    rfl

/-- Witness for C2's amended claim: the quote-free snapshot with an
eligible race and a place-market race. -/
theorem missing_quote_fatal_in_handle_race_witness :
    Jockey.handle_race [] st2 race1 = .error .keyError ∧
    Jockey.handle_race2 [] st0 raceTbp = .ok st0 :=
  missing_quote_fatal_in_handle_race [] st2 race1 [] st0 raceTbp
    (by decide) (by decide) (by decide) (by decide) (by decide) (by decide)

/-! ### C3 -/

/-- Counterexample for C3: `raceSmall` has 2 runners (below the
`n_runners < 3` gate) and a known winner, yet `Jockey.handle_race` returns
with the state — including the skill model — completely unchanged
(`strategy.py` line 130 returns before `fit_race` on line 159), even
though the update would have changed the model. -/
theorem small_race_gets_no_skill_update :
    Jockey.handle_race [] st0 raceSmall = .ok st0 ∧
    HorseModel.fit_race st0.hm raceSmall ≠ st0.hm := by
  decide

/-- Claim C3 as amended: a race whose participants fail the `min_races`
history gate gets no bet but the skill model still receives that race's
belief update; a race failing the runner-count / market-kind gate
(`TO_BE_PLACED` or fewer than 3 runners) is skipped entirely — no bet
*and no belief update*. -/
theorem ineligible_race_split (vwao : Vwao) (s : JockeyState) (ra rb : Race)
    (h1 : ra.event ≠ TO_BE_PLACED) (h2 : ¬ ra.n_runners < 3)
    (h3 : ¬ ((s.hm.get_runs ra.selection).all (fun n => decide (2 < n)) = true))
    (h4 : rb.event = TO_BE_PLACED ∨ rb.n_runners < 3) :
    Jockey.handle_race vwao s ra = .ok { s with hm := s.hm.fit_race ra } ∧
    Jockey.handle_race vwao s rb = .ok s := by
  constructor
  · unfold Jockey.handle_race
    rw [if_neg (by push_neg; exact ⟨h1, not_lt.mp h2⟩)]
    unfold Jockey.hrBody
    rw [if_neg h3]
  · unfold Jockey.handle_race
    rw [if_pos h4]

/-- Witness for C3's amended claim: `race1` with the empty skill model
(every runner below the history gate) and the 2-runner `raceSmall`. -/
theorem ineligible_race_split_witness :
    Jockey.handle_race vw1 st1 race1 = .ok { st1 with hm := st1.hm.fit_race race1 } ∧
    Jockey.handle_race vw1 st1 raceSmall = .ok st1 :=
  ineligible_race_split vw1 st1 race1 raceSmall
    (by decide) (by decide) (by decide) (by decide)

/-- Splitting a mapped sum along a Boolean predicate. -/
theorem sum_map_filter_not (l : List Bet) (p : Bet → Bool) (f : Bet → ℚ) :
    ((l.filter p).map f).sum + ((l.filter (fun b => ! p b)).map f).sum
      = (l.map f).sum := by
  induction l with
  | nil => simp
  | cons b t ih =>
    cases hp : p b
    · simp only [List.filter_cons, hp, Bool.false_eq_true, if_false, Bool.not_false,
        if_true, List.map_cons, List.sum_cons]
      linarith [ih]
    · simp only [List.filter_cons, hp, Bool.not_true, Bool.false_eq_true, if_false,
        if_true, List.map_cons, List.sum_cons]
      linarith [ih]

/-- A fiber over `e2 ≠ e` is unchanged by first removing the `e` fiber. -/
theorem filter_fiber_of_ne (l : List Bet) (e e2 : ℕ) (hne : e2 ≠ e) :
    ((l.filter (fun b => ! (decide (b.event_id = e)))).filter
      (fun b => decide (b.event_id = e2))) =
    l.filter (fun b => decide (b.event_id = e2)) := by
  induction l with
  | nil => rfl
  | cons b t ih =>
    by_cases hb : b.event_id = e2
    · have hbe : ¬ (b.event_id = e) := by rw [hb]; exact hne
      simp [List.filter_cons, hb, hbe, ih, hne]
    · by_cases hbe : b.event_id = e
      · simp [List.filter_cons, hb, hbe, ih, Ne.symm hne]
      · simp [List.filter_cons, hb, hbe, ih]

/-- Summing the pnl of every fiber of a covering duplicate-free key list
recovers the total pnl. -/
theorem fibers_sum : ∀ (ids : List ℕ) (l : List Bet), ids.Nodup →
    (∀ b ∈ l, b.event_id ∈ ids) →
    (ids.map (fun e =>
      ((l.filter (fun b => decide (b.event_id = e))).map (fun b => b.pnl)).sum)).sum
      = (l.map (fun b => b.pnl)).sum := by
  intro ids
  induction ids with
  | nil =>
    intro l _ hcov
    cases l with
    | nil => simp
    | cons b t => exact absurd (hcov b (by simp)) (by simp)
  | cons e ids ih =>
    intro l hnd hcov
    obtain ⟨hnotmem, hnd2⟩ := List.nodup_cons.mp hnd
    rw [List.map_cons, List.sum_cons]
    have hmap : ids.map (fun e2 =>
        ((l.filter (fun b => decide (b.event_id = e2))).map (fun b => b.pnl)).sum)
        = ids.map (fun e2 =>
        (((l.filter (fun b => ! (decide (b.event_id = e)))).filter
          (fun b => decide (b.event_id = e2))).map (fun b => b.pnl)).sum) :=
      List.map_congr_left (fun e2 he2 => by
        rw [filter_fiber_of_ne l e e2 (fun hh => hnotmem (hh ▸ he2))])
    rw [hmap, ih (l.filter (fun b => ! (decide (b.event_id = e)))) hnd2 ?_]
    · exact sum_map_filter_not l (fun b => decide (b.event_id = e)) (fun b => b.pnl)
    · intro b hb
      have hbl : b ∈ l := List.mem_of_mem_filter hb
      have hbne : ¬ (b.event_id = e) := by simpa using List.of_mem_filter hb
      have hmem := hcov b hbl
      rcases List.mem_cons.mp hmem with hh | hh
      · exact absurd hh hbne
      · exact hh

/-! ### C6 -/

/-- Claim C6: for a finished non-empty ledger, the per-event gross P&L
figures of the scorecard's event aggregation (`strategy.py` lines 88-92:
one `pnl_gross = v.pnl.sum()` per `event_id` group) sum to the total
`Σ bet.pnl` over the ledger. -/
theorem scorecard_reproduces_total_pnl (bets : List Bet) (comm : ℚ)
    (_hne : bets ≠ []) :
    ((make_scorecard_events bets comm).map (fun r => r.pnl_gross)).sum
      = (bets.map (fun b => b.pnl)).sum := by
  have hcov : ∀ b ∈ bets, b.event_id ∈ (bets.map (fun b => b.event_id)).dedup :=
    fun b hb => List.mem_dedup.mpr (List.mem_map_of_mem _ hb)
  have htot := fibers_sum ((bets.map (fun b => b.event_id)).dedup) bets
    (List.nodup_dedup _) hcov
  unfold make_scorecard_events
  rw [List.map_map]
  exact htot

/-- Witness for C6: the one-bet ledger `betsW`. -/
theorem scorecard_reproduces_total_pnl_witness :
    (betsW ≠ []) ∧
    ((make_scorecard_events betsW DEFAULT_COMM).map (fun r => r.pnl_gross)).sum
      = (betsW.map (fun b => b.pnl)).sum :=
  ⟨by decide, scorecard_reproduces_total_pnl betsW DEFAULT_COMM (by decide)⟩

/-- Inversion of a successful bet-placement loop: the current race and the
skill state are untouched, and the ledger grows by exactly one record per
list entry, each built the way `Strategy.bet` builds it. -/
theorem placeAll_ok_inv (vwao : Vwao) (eid : ℕ) :
    ∀ (l : List (ℕ × ℚ × ℚ)) (s s1 : JockeyState),
      Jockey.placeAll vwao eid s l = .ok s1 →
      s1.curr = s.curr ∧ s1.hm = s.hm ∧
      ∀ c, s.curr = some c →
        s1.bets = s.bets ++ l.map (fun x =>
          betRecord c eid x.1 x.2.1 ((getValue vwao eid x.1).getD 0)
            [("p", x.2.2)]) := by
  intro l
  induction l with
  | nil =>
    intro s s1 h
    obtain rfl : s = s1 := Except.ok.inj h
    exact ⟨rfl, rfl, fun c _ => by simp⟩
  | cons x rest ih =>
    intro s s1 h
    obtain ⟨r, wi, pi⟩ := x
    unfold Jockey.placeAll at h
    cases hb : Strategy.bet vwao s eid r wi [("p", pi)] with
    | error e => rw [hb] at h; exact absurd h (by simp)
    | ok s2 =>
      rw [hb] at h
      dsimp only at h
      obtain ⟨c, odds, hc, _, hv, rfl⟩ := bet_ok_inv vwao s eid r wi _ s2 hb
      obtain ⟨h1, h2, h3⟩ := ih _ s1 h
      refine ⟨h1, h2, ?_⟩
      intro c2 hc2
      obtain rfl : c = c2 := by rw [hc] at hc2; exact Option.some.inj hc2
      have hbets := h3 c hc
      rw [hbets]
      simp [hv, List.append_assoc]

/-- The first successful bet of a non-empty placement loop pins down the
current race and the asserted event id. -/
theorem placeAll_cons_curr (vwao : Vwao) (eid : ℕ) (r : ℕ) (wi pi : ℚ)
    (rest : List (ℕ × ℚ × ℚ)) (s s1 : JockeyState)
    (h : Jockey.placeAll vwao eid s ((r, wi, pi) :: rest) = .ok s1) :
    ∃ c, s.curr = some c ∧ eid = c.event_id := by
  unfold Jockey.placeAll at h
  cases hb : Strategy.bet vwao s eid r wi [("p", pi)] with
  | error e => rw [hb] at h; exact absurd h (by simp)
  | ok s2 =>
    obtain ⟨c, _, hc, he, _, _⟩ := bet_ok_inv vwao s eid r wi _ s2 hb
    exact ⟨c, hc, he⟩

/-- When the asserted event id matches the current race, the placement
loop can only fail with a `keyError`, never with the assertion. -/
theorem placeAll_no_assert (vwao : Vwao) (eid : ℕ) :
    ∀ (l : List (ℕ × ℚ × ℚ)) (s : JockeyState) (c : Race),
      s.curr = some c → eid = c.event_id →
      Jockey.placeAll vwao eid s l ≠ .error .assertion := by
  intro l
  induction l with
  | nil => intro s c _ _ h; exact absurd h (by simp [Jockey.placeAll])
  | cons x rest ih =>
    intro s c hc he h
    obtain ⟨r, wi, pi⟩ := x
    unfold Jockey.placeAll at h
    cases hb : Strategy.bet vwao s eid r wi [("p", pi)] with
    | error e =>
      rw [hb] at h
      dsimp only at h
      obtain rfl : e = StratError.assertion := (Except.error.inj h)
      unfold Strategy.bet at hb
      rw [hc] at hb
      dsimp only at hb
      rw [if_pos he] at hb
      cases hv : getValue vwao eid r with
      | none => rw [hv] at hb; exact absurd (Except.error.inj hb) (by simp)
      | some odds => rw [hv] at hb; exact absurd hb (by simp)
    | ok s2 =>
      rw [hb] at h
      dsimp only at h
      obtain ⟨c2, _, hc2, _, _, rfl⟩ := bet_ok_inv vwao s eid r wi _ s2 hb
      exact ih _ c (by simpa using hc) he h

/-- A successful multi-runner quote lookup yields one odds value per
runner. -/
theorem lookupQuotes_length (vwao : Vwao) (eid : ℕ) :
    ∀ (rs : List ℕ) (vs : List ℚ), lookupQuotes vwao eid rs = some vs →
      vs.length = rs.length := by
  intro rs
  induction rs with
  | nil =>
    intro vs h
    obtain rfl : ([] : List ℚ) = vs := Option.some.inj (by simpa [lookupQuotes] using h)
    rfl
  | cons r rs ih =>
    intro vs h
    unfold lookupQuotes at h
    cases hv : getValue vwao eid r with
    | none => rw [hv] at h; exact absurd h (by simp)
    | some v =>
      rw [hv] at h
      cases hq : lookupQuotes vwao eid rs with
      | none => rw [hq] at h; exact absurd h (by simp)
      | some vs2 =>
        rw [hq] at h
        dsimp only at h
        obtain rfl : v :: vs2 = vs := Option.some.inj h
        simp [ih vs2 hq]

/-- The blended probability vector has one entry per runner. -/
theorem jockeyP_length (hm : HorseModel) (runners : List ℕ) (vs : List ℚ)
    (h : vs.length = runners.length) :
    (Jockey.jockeyP hm runners vs).length = runners.length := by
  simp [Jockey.jockeyP, capProbs, Jockey.jockeyQ, HorseModel.pwin_trapz,
    List.length_zipWith, h]

/-- The stake vector has one entry per runner. -/
theorem jockeyW_length (hm : HorseModel) (runners : List ℕ) (vs : List ℚ)
    (h : vs.length = runners.length) :
    (Jockey.jockeyW hm runners vs).length = runners.length := by
  simp [Jockey.jockeyW, risk.nwin1_l2reg, List.length_zipWith,
    jockeyP_length hm runners vs h, Jockey.jockeyQ, h]

/-- Inversion of a successful `hrBody` run (the non-early-return part of
`handle_race`): the current race and skill state never change; the ledger
either is untouched or grows by exactly the gated bet list; a collateral
below -60 always leaves the ledger untouched; and if the ledger grew, the
quote lookup succeeded, the collateral gate passed, and one bet per runner
was appended. -/
theorem hrBody_ok_inv (vwao : Vwao) (s : JockeyState) (race : Race)
    (s1 : JockeyState)
    (hne : ¬ (race.event = TO_BE_PLACED ∨ race.n_runners < 3))
    (h : Jockey.hrBody vwao s race = .ok s1) :
    s1.curr = s.curr ∧ s1.hm = s.hm ∧
    (∀ c, s.curr = some c →
      s1.bets = s.bets ++ Jockey.jockeyNewBets vwao s.hm c race) ∧
    (s.curr = none → s1.bets = s.bets) ∧
    (∀ vs coll, lookupQuotes vwao race.event_id race.selection = some vs →
      Jockey.jockeyColl s.hm race.selection vs = some coll → coll < -60 →
      s1.bets = s.bets) ∧
    (s1.bets ≠ s.bets →
      ∃ c vs coll, s.curr = some c ∧
        lookupQuotes vwao race.event_id race.selection = some vs ∧
        Jockey.jockeyColl s.hm race.selection vs = some coll ∧ -60 < coll ∧
        (Jockey.jockeyNewBets vwao s.hm c race).length = race.selection.length) := by
  unfold Jockey.hrBody at h
  by_cases hg : ((s.hm.get_runs race.selection).all (fun n => decide (2 < n))) = true
  · rw [if_pos hg] at h
    cases hq : lookupQuotes vwao race.event_id race.selection with
    | none => rw [hq] at h; exact absurd h (by simp)
    | some vs =>
      rw [hq] at h
      dsimp only at h
      cases hcoll : Jockey.jockeyColl s.hm race.selection vs with
      | none => rw [hcoll] at h; exact absurd h (by simp)
      | some coll =>
        rw [hcoll] at h
        dsimp only at h
        by_cases hlt : coll > -60
        · rw [if_pos hlt] at h
          obtain ⟨h1, h2, h3⟩ := placeAll_ok_inv vwao race.event_id _ s s1 h
          have hlenvs : vs.length = race.selection.length :=
            lookupQuotes_length vwao race.event_id _ _ hq
          have hsel : race.selection ≠ [] := by
            intro hnil
            rw [hnil] at hq
            obtain rfl : ([] : List ℚ) = vs :=
              Option.some.inj (by simpa [lookupQuotes] using hq)
            rw [hnil] at hcoll
            simp [Jockey.jockeyColl, Jockey.jockeyW, Jockey.jockeyP, capProbs,
              Jockey.jockeyQ, risk.nwin1_l2reg, risk.nwin1_bet_returns, npmin,
              HorseModel.pwin_trapz] at hcoll
          have hzlen : (race.selection.zip ((Jockey.jockeyW s.hm race.selection vs).zip
              (Jockey.jockeyP s.hm race.selection vs))).length
              = race.selection.length := by
            simp [List.length_zip, jockeyW_length s.hm race.selection vs hlenvs,
              jockeyP_length s.hm race.selection vs hlenvs]
          obtain ⟨x, l2, hxl⟩ : ∃ x l2,
              race.selection.zip ((Jockey.jockeyW s.hm race.selection vs).zip
                (Jockey.jockeyP s.hm race.selection vs)) = x :: l2 := by
            cases hz : race.selection.zip ((Jockey.jockeyW s.hm race.selection vs).zip
                (Jockey.jockeyP s.hm race.selection vs)) with
            | nil =>
              rw [hz] at hzlen
              exact absurd hzlen.symm (by simpa using hsel)
            | cons a b => exact ⟨a, b, rfl⟩
          have hcurr : ∃ c, s.curr = some c ∧ race.event_id = c.event_id := by
            rw [hxl] at h
            obtain ⟨r0, w0, p0⟩ := x
            exact placeAll_cons_curr vwao race.event_id r0 w0 p0 l2 s s1 h
          obtain ⟨c, hc, _⟩ := hcurr
          have hnew : ∀ c2, s.curr = some c2 →
              Jockey.jockeyNewBets vwao s.hm c2 race =
              (race.selection.zip ((Jockey.jockeyW s.hm race.selection vs).zip
                (Jockey.jockeyP s.hm race.selection vs))).map (fun x =>
                  betRecord c2 race.event_id x.1 x.2.1
                    ((getValue vwao race.event_id x.1).getD 0) [("p", x.2.2)]) := by
            intro c2 _
            rw [Jockey.jockeyNewBets, if_neg hne, if_pos hg, hq]
            dsimp only
            rw [hcoll]
            dsimp only
            rw [if_pos hlt]
          refine ⟨h1, h2, ?_, ?_, ?_, ?_⟩
          · intro c2 hc2
            rw [hnew c2 hc2, h3 c2 hc2]
          · intro hcnone
            rw [hcnone] at hc
            exact absurd hc (by simp)
          · intro vs2 coll2 hq2 hcoll2 hlt2
            have hveq : vs = vs2 := Option.some.inj hq2
            subst hveq
            have hceq : coll = coll2 := Option.some.inj (hcoll.symm.trans hcoll2)
            exact absurd hlt (by rw [hceq]; intro hgt; linarith)
          · intro _
            refine ⟨c, vs, coll, hc, rfl, hcoll, hlt, ?_⟩
            rw [hnew c hc]
            simp [hzlen]
        · rw [if_neg hlt] at h
          obtain rfl : s = s1 := Except.ok.inj h
          refine ⟨rfl, rfl, ?_, fun _ => rfl, fun _ _ _ _ _ => rfl,
            fun hbb => absurd rfl hbb⟩
          intro c _
          rw [Jockey.jockeyNewBets, if_neg hne, if_pos hg, hq]
          dsimp only
          rw [hcoll]
          dsimp only
          rw [if_neg hlt]
          simp
  · rw [if_neg hg] at h
    obtain rfl : s = s1 := Except.ok.inj h
    refine ⟨rfl, rfl, ?_, fun _ => rfl, fun _ _ _ _ _ => rfl,
      fun hbb => absurd rfl hbb⟩
    intro c _
    rw [Jockey.jockeyNewBets, if_neg hne, if_neg hg]
    simp

/-- Inversion of a successful `handle_race` call: the current-race field
is untouched; the skill state either is untouched (early return) or is
`fit_race` of the *pre-race* skill state; the ledger grows by exactly the
gated bet list computed from the pre-race skill state; a collateral below
-60 leaves the ledger untouched; and a grown ledger certifies quote
lookup, collateral gate, and one bet per runner. -/
theorem handle_race_ok_inv (vwao : Vwao) (s : JockeyState) (race : Race)
    (s1 : JockeyState) (h : Jockey.handle_race vwao s race = .ok s1) :
    s1.curr = s.curr ∧
    (s1.hm = s.hm ∨ s1.hm = s.hm.fit_race race) ∧
    (∀ c, s.curr = some c →
      s1.bets = s.bets ++ Jockey.jockeyNewBets vwao s.hm c race) ∧
    (s.curr = none → s1.bets = s.bets) ∧
    (∀ vs coll, lookupQuotes vwao race.event_id race.selection = some vs →
      Jockey.jockeyColl s.hm race.selection vs = some coll → coll < -60 →
      s1.bets = s.bets) ∧
    (s1.bets ≠ s.bets →
      ∃ c vs coll, s.curr = some c ∧
        lookupQuotes vwao race.event_id race.selection = some vs ∧
        Jockey.jockeyColl s.hm race.selection vs = some coll ∧ -60 < coll ∧
        (Jockey.jockeyNewBets vwao s.hm c race).length = race.selection.length) := by
  unfold Jockey.handle_race at h
  by_cases hearly : race.event = TO_BE_PLACED ∨ race.n_runners < 3
  · rw [if_pos hearly] at h
    obtain rfl : s = s1 := Except.ok.inj h
    refine ⟨rfl, Or.inl rfl, ?_, fun _ => rfl, fun _ _ _ _ _ => rfl,
      fun hbb => absurd rfl hbb⟩
    intro c _
    rw [Jockey.jockeyNewBets, if_pos hearly]
    simp
  · rw [if_neg hearly] at h
    cases hb : Jockey.hrBody vwao s race with
    | error e => rw [hb] at h; exact absurd h (by simp)
    | ok s2 =>
      rw [hb] at h
      dsimp only at h
      obtain rfl : { s2 with hm := s2.hm.fit_race race } = s1 := Except.ok.inj h
      obtain ⟨h1, h2, h3, h4, h5, h6⟩ := hrBody_ok_inv vwao s race s2 hearly hb
      exact ⟨h1, Or.inr (show s2.hm.fit_race race = s.hm.fit_race race from
        by rw [h2]), h3, h4, h5, h6⟩

/-- When the asserted event id matches the current race, `hrBody` never
fails with the assertion error. -/
theorem hrBody_no_assert (vwao : Vwao) (s : JockeyState) (race : Race) (c : Race)
    (hc : s.curr = some c) (he : race.event_id = c.event_id) :
    Jockey.hrBody vwao s race ≠ .error .assertion := by
  unfold Jockey.hrBody
  by_cases hg : ((s.hm.get_runs race.selection).all (fun n => decide (2 < n))) = true
  · rw [if_pos hg]
    cases hq : lookupQuotes vwao race.event_id race.selection with
    | none => simp
    | some vs =>
      dsimp only
      cases hcoll : Jockey.jockeyColl s.hm race.selection vs with
      | none => simp
      | some coll =>
        dsimp only
        by_cases hlt : coll > -60
        · rw [if_pos hlt]
          exact placeAll_no_assert vwao race.event_id _ s c hc he
        · rw [if_neg hlt]; simp
  · rw [if_neg hg]; simp

/-- When `run` has set the current race before dispatching, `handle_race`
never fails with the assertion error. -/
theorem handle_race_no_assert (vwao : Vwao) (s : JockeyState) (race : Race)
    (hc : s.curr = some race) :
    Jockey.handle_race vwao s race ≠ .error .assertion := by
  unfold Jockey.handle_race
  by_cases hearly : race.event = TO_BE_PLACED ∨ race.n_runners < 3
  · rw [if_pos hearly]; simp
  · rw [if_neg hearly]
    cases hb : Jockey.hrBody vwao s race with
    | error e =>
      dsimp only
      intro hcontra
      obtain rfl : e = StratError.assertion := Except.error.inj hcontra
      exact hrBody_no_assert vwao s race race hc rfl hb
    | ok s2 => dsimp only; simp

/-- Every bet the betting branch appends references the race being
processed. -/
theorem jockeyNewBets_event_id (vwao : Vwao) (hm : HorseModel) (c race : Race)
    (b : Bet) (hb : b ∈ Jockey.jockeyNewBets vwao hm c race) :
    b.event_id = race.event_id := by
  unfold Jockey.jockeyNewBets at hb
  split at hb
  · exact absurd hb (by simp)
  · split at hb
    · split at hb
      · exact absurd hb (by simp)
      · split at hb
        · exact absurd hb (by simp)
        · split at hb
          · obtain ⟨x, _, rfl⟩ := List.mem_map.mp hb
            rfl
          · exact absurd hb (by simp)
    · exact absurd hb (by simp)

/-! ### C1 -/

/-- Claim C1: stake placement is all-or-nothing and gated by the
collateral floor (`strategy.py` lines 152-157): on a successful
`handle_race`, either no bet from the race entered the ledger, or the
quote lookup succeeded, the worst-case return `coll` over the
single-winner scenarios satisfied `coll > -60` — hence is not below the
bound `-60` that the hard-coded `max_exposure` of the `Jockey` strategy
induces — and exactly one bet per selection was appended; and whenever the
computed worst case is below `-60`, the ledger is unchanged (no partial
placement). -/
theorem collateral_gate_all_or_nothing (vwao : Vwao) (s : JockeyState)
    (race : Race) (s1 : JockeyState)
    (h : Jockey.handle_race vwao s race = .ok s1) :
    (s1.bets = s.bets ∨
      ∃ c vs coll, s.curr = some c ∧
        lookupQuotes vwao race.event_id race.selection = some vs ∧
        Jockey.jockeyColl s.hm race.selection vs = some coll ∧
        -60 ≤ coll ∧
        s1.bets = s.bets ++ Jockey.jockeyNewBets vwao s.hm c race ∧
        (Jockey.jockeyNewBets vwao s.hm c race).length
          = race.selection.length) ∧
    (∀ vs coll, lookupQuotes vwao race.event_id race.selection = some vs →
      Jockey.jockeyColl s.hm race.selection vs = some coll → coll < -60 →
      s1.bets = s.bets) := by
  obtain ⟨_, _, h3, _, h5, h6⟩ := handle_race_ok_inv vwao s race s1 h
  refine ⟨?_, h5⟩
  by_cases hbb : s1.bets = s.bets
  · exact Or.inl hbb
  · obtain ⟨c, vs, coll, hc, hq, hcoll, hlt, hlen⟩ := h6 hbb
    exact Or.inr ⟨c, vs, coll, hc, hq, hcoll, le_of_lt hlt, h3 c hc, hlen⟩

/-- Witness for C1: `handle_race` on `race1` from `st1`. -/
theorem collateral_gate_all_or_nothing_witness :
    ((st1after.bets = st1.bets ∨
      ∃ c vs coll, st1.curr = some c ∧
        lookupQuotes vw1 race1.event_id race1.selection = some vs ∧
        Jockey.jockeyColl st1.hm race1.selection vs = some coll ∧
        -60 ≤ coll ∧
        st1after.bets = st1.bets ++ Jockey.jockeyNewBets vw1 st1.hm c race1 ∧
        (Jockey.jockeyNewBets vw1 st1.hm c race1).length
          = race1.selection.length) ∧
    (∀ vs coll, lookupQuotes vw1 race1.event_id race1.selection = some vs →
      Jockey.jockeyColl st1.hm race1.selection vs = some coll → coll < -60 →
      st1after.bets = st1.bets)) :=
  collateral_gate_all_or_nothing vw1 st1 race1 st1after (by rfl)

/-! ### C8 -/

/-- Claim C8: the skill-model update for a race is applied only after all
of that race's bets are placed (`strategy.py` line 159 runs after the
betting block of lines 134-157): on a successful `handle_race`, the
appended bets are exactly those computed from the *pre-race* skill state
`s.hm`, and the final skill state is either untouched (early skip) or
`fit_race` of that same pre-race state — never an updated state observed
by the betting decision. -/
theorem skill_update_only_after_bets (vwao : Vwao) (s : JockeyState)
    (race : Race) (s1 : JockeyState) (c : Race) (hc : s.curr = some c)
    (h : Jockey.handle_race vwao s race = .ok s1) :
    s1.bets = s.bets ++ Jockey.jockeyNewBets vwao s.hm c race ∧
    (s1.hm = s.hm ∨ s1.hm = s.hm.fit_race race) := by
  obtain ⟨_, h2, h3, _, _, _⟩ := handle_race_ok_inv vwao s race s1 h
  exact ⟨h3 c hc, h2⟩

/-- Witness for C8: `handle_race` on `race1` from `st1`. -/
theorem skill_update_only_after_bets_witness :
    (st1after.bets = st1.bets ++ Jockey.jockeyNewBets vw1 st1.hm race1 race1 ∧
    (st1after.hm = st1.hm ∨ st1after.hm = st1.hm.fit_race race1)) :=
  skill_update_only_after_bets vw1 st1 race1 st1after race1 rfl (by rfl)

/-! ### C10 -/

/-- Claim C10 (implicit): during `Strategy.run`, the assertion at the
entry of `Strategy.bet` always holds — `run` assigns `self._curr` before
each `handle_race` call and `handle_race` only bets that race's event id —
so the assertion-failure branch is unreachable, and every ledger entry a
run adds references exactly one of the processed races. -/
theorem run_assertion_unreachable (vwao : Vwao) (s : JockeyState)
    (races : List Race) :
    Strategy.run vwao s races ≠ .error .assertion ∧
    (∀ s1, Strategy.run vwao s races = .ok s1 →
      ∀ b ∈ s1.bets, b ∈ s.bets ∨ b.event_id ∈ races.map (fun r => r.event_id)) := by
  induction races generalizing s with
  | nil =>
    refine ⟨by simp [Strategy.run], ?_⟩
    intro s1 h1 b hb
    have hss : s = s1 := by simpa [Strategy.run] using h1
    subst hss
    exact Or.inl hb
  | cons race rest ih =>
    constructor
    · intro hcontra
      unfold Strategy.run at hcontra
      cases hh : Jockey.handle_race vwao { s with curr := some race } race with
      | error e =>
        rw [hh] at hcontra
        dsimp only at hcontra
        obtain rfl : e = StratError.assertion := Except.error.inj hcontra
        exact handle_race_no_assert vwao _ race rfl hh
      | ok s2 =>
        rw [hh] at hcontra
        dsimp only at hcontra
        exact (ih s2).1 hcontra
    · intro s1 h1 b hb
      unfold Strategy.run at h1
      cases hh : Jockey.handle_race vwao { s with curr := some race } race with
      | error e => rw [hh] at h1; exact absurd h1 (by simp)
      | ok s2 =>
        rw [hh] at h1
        dsimp only at h1
        rcases (ih s2).2 s1 h1 b hb with hbs2 | hin
        · obtain ⟨_, _, h3, _, _, _⟩ := handle_race_ok_inv vwao _ race s2 hh
          have hbets := h3 race rfl
          rw [hbets] at hbs2
          rcases List.mem_append.mp hbs2 with hbs | hbn
          · exact Or.inl hbs
          · refine Or.inr ?_
            rw [List.map_cons]
            exact List.mem_cons.mpr (Or.inl (jockeyNewBets_event_id _ _ _ _ _ hbn))
        · exact Or.inr (by rw [List.map_cons]; exact List.mem_cons.mpr (Or.inr hin))

/-- Witness for C10: a one-race stream. -/
theorem run_assertion_unreachable_witness :
    Strategy.run vw1 st0 [race1] ≠ .error .assertion ∧
    (∀ s1, Strategy.run vw1 st0 [race1] = .ok s1 →
      ∀ b ∈ s1.bets, b ∈ st0.bets ∨ b.event_id ∈ [race1].map (fun r => r.event_id)) :=
  run_assertion_unreachable vw1 st0 [race1]
